/-
Verification development for the CalendarOptimizer repository.

The repository's scheduling engine lives in three places:
  * `localOptimize` in src/frontend/src/App.tsx (the TypeScript react front end's
    local optimizer: priority sort, anchored/flexible partition, half-hour slot
    search over a 14-day horizon with weekend skipping, conflict checking);
  * the vanilla-JS `CalendarOptimizer` class in src/unnamed/part_000
    (`findAvailableSlot`, `localOptimization`, `findConflicts`);
  * helpers in src/frontend/src/utils/nlp.ts (`getNextWeekday`) and the form
    validation in the `EventForm` component (src/unnamed/part_003).

This file gives a shallow embedding of those functions and proves or refutes
the frozen claims about them.

Modelling conventions:
  * Calendar days are absolute day numbers (`ℕ`); day 0 is a Thursday, matching
    the Unix epoch, so the JS `Date.getDay` weekday (0 = Sunday .. 6 = Saturday)
    of day `d` is `(d + 4) % 7`.
  * Times of day are minutes (`ℕ`).  The JS code works in fractional hours
    (`hour`, stepping by `0.5`, `duration / 60`); multiplying every comparison
    by 60 turns that arithmetic into exact integer arithmetic, so minutes are a
    faithful encoding for integer durations (JS float rounding cannot flip any
    of the comparisons involved: grid points are multiples of 30 minutes and
    durations are integers, so distinct compared values differ by ≥ 1/60 hour,
    far above double rounding error at these magnitudes).
  * A `fixedTime` string is modelled by its regex-match outcome: the App.tsx
    code matches `/(\d{1,2}):(\d{2})\s*(AM|PM)?/i` and uses the captured
    groups only; `Event.fixedTime = none` models an absent (or empty, hence
    falsy) string, `some none` a present string the regex does not match, and
    `some (some ft)` a present string matching with groups `ft`.
-/
import Mathlib

namespace CalOpt

/-- JS `Date.getDay` of absolute day number `d` (0 = Sunday .. 6 = Saturday);
day 0 is a Thursday (Unix epoch convention). -/
def weekday (d : ℕ) : ℕ := (d + 4) % 7

/-- A concrete instant: an absolute day number and a minute of that day.
Models a JS `Date` at minute precision (the engine never uses seconds). -/
structure DateTime where
  day : ℕ
  minute : ℕ
deriving DecidableEq

/-- Absolute minute count of an instant, for chronological comparison. -/
def DateTime.toMin (t : DateTime) : ℕ := t.day * 1440 + t.minute

/-- The `type` field of the TypeScript `Event` interface. -/
inductive EventType
  | flexible
  | fixed
  | mandatory
deriving DecidableEq

/-- Captured groups of the App.tsx time regex `(\d{1,2}):(\d{2})(AM|PM)?`:
hour digits, minute digits, and the optional meridiem suffix
(`some true` = PM, `some false` = AM, `none` = absent). -/
structure WallClock where
  hours : ℕ
  minutes : ℕ
  pm : Option Bool
deriving DecidableEq

/-- The TypeScript `Event` record (src/frontend/src/types/Event.ts), restricted
to the fields the optimizer reads.  Display-only fields (description, location,
color, recurringPattern) are omitted; they are never consulted by the engine. -/
structure Event where
  id : ℕ
  title : String
  duration : ℕ
  priority : ℤ
  type : EventType
  scheduledTime : Option DateTime
  earliestStart : Option DateTime
  latestStart : Option DateTime
  fixedTime : Option (Option WallClock)
  dayOfWeek : Option ℕ
  isScheduled : Bool
deriving DecidableEq

/-- The 24-hour conversion that App.tsx performs twice (lines 208-212 and
241-245): `PM` adds 12 unless the hour is 12, `AM` maps 12 to 0. -/
def to24Hour (h : ℕ) (pm : Option Bool) : ℕ :=
  if pm = some true ∧ h ≠ 12 then h + 12
  else if pm = some false ∧ h = 12 then 0
  else h

/-- Processing of one anchored event by `localOptimize` (App.tsx lines 189-221):
recurring events (`dayOfWeek` and `fixedTime` both present) are pushed with
`scheduledTime` cleared; other events with a parsable `fixedTime` and no
`dayOfWeek` get `scheduledTime` set to today at that wall-clock time (JS
`setHours` rolls excess hours over into later days); everything else is pushed
unchanged except for `isScheduled := true`. -/
def scheduleFixed (today : ℕ) (e : Event) : Event :=
  if e.dayOfWeek.isSome ∧ e.fixedTime.isSome then
    { e with isScheduled := true, scheduledTime := none }
  else
    match e.fixedTime, e.dayOfWeek with
    | some (some ft), none =>
        let m := to24Hour ft.hours ft.pm * 60 + ft.minutes
        { e with isScheduled := true,
                 scheduledTime := some ⟨today + m / 1440, m % 1440⟩ }
    | _, _ => { e with isScheduled := true }

/-- The `existingEvent.scheduledTime` branch of `hasConflict` (App.tsx lines
258-271).  Note the source truncates the existing event's start to its whole
hour: `existingDate.getHours()` discards the minutes, so the occupied interval
used for the check starts at `(minute / 60) * 60`, not at `minute`. -/
def scheduledConflict (checkDay checkMin dur : ℕ) (ex : Event) : Bool :=
  match ex.scheduledTime with
  | some st =>
      if st.day = checkDay then
        let es := (st.minute / 60) * 60
        decide (checkMin < es + ex.duration) && decide (checkMin + dur > es)
      else false
  | none => false

/-- The body of the `scheduledEvents.some(...)` callback in `hasConflict`
(App.tsx lines 228-274) for one existing event.  The recurring branch matches
the source's early returns: weekday mismatch or regex failure yields `false`
for this event; an overlap yields `true`; otherwise control falls through to
the `scheduledTime` check.  The recurring branch destructures only the hour
digits and the meridiem (`let [, hours, , ampm]`), discarding the minutes, so
the recurring interval starts at the whole hour. -/
def conflictsWithExisting (checkDay checkMin dur : ℕ) (ex : Event) : Bool :=
  match ex.dayOfWeek, ex.fixedTime with
  | some w, some mft =>
      if w ≠ weekday checkDay then false
      else
        match mft with
        | none => false
        | some ft =>
            let es := to24Hour ft.hours ft.pm * 60
            if checkMin < es + ex.duration ∧ checkMin + dur > es then true
            else scheduledConflict checkDay checkMin dur ex
  | _, _ => scheduledConflict checkDay checkMin dur ex

/-- `hasConflict(checkDay, checkHour, durationHours)` from App.tsx lines
224-275, in minutes. -/
def hasConflict (scheduledEvents : List Event) (checkDay checkMin dur : ℕ) : Bool :=
  scheduledEvents.any (conflictsWithExisting checkDay checkMin dur)

/-- Candidate minutes of one day for a flexible event of duration `dur`:
the JS loop `for (hour = 8; hour <= 20 - duration/60; hour += 0.5)` in minutes.
`hour ≤ 20 - dur/60` is exactly `hm + dur ≤ 1200` after scaling by 60, and
`hour ≤ 20` bounds the index by 24. -/
def candidateMinutes (dur : ℕ) : List ℕ :=
  ((List.range 25).map (fun k => 480 + 30 * k)).filter (fun hm => hm + dur ≤ 1200)

/-- The day loop of the flexible-event search (App.tsx lines 289-319) over a
list of day offsets: Saturdays and Sundays are skipped (`continue`), and within
a weekday the first candidate minute with no conflict wins. -/
def searchDays (today : ℕ) (placed : List Event) (dur : ℕ) : List ℕ → Option DateTime
  | [] => none
  | off :: rest =>
      if weekday (today + off) = 0 ∨ weekday (today + off) = 6 then
        searchDays today placed dur rest
      else
        match (candidateMinutes dur).find? (fun hm => !hasConflict placed (today + off) hm dur) with
        | some hm => some ⟨today + off, hm⟩
        | none => searchDays today placed dur rest

/-- The full 14-day search (`for (dayOffset = 0; dayOffset < 14 && !scheduled; ...)`). -/
def firstFreeSlot (today : ℕ) (placed : List Event) (dur : ℕ) : Option DateTime :=
  searchDays today placed dur (List.range 14)

/-- One iteration of the flexible-event loop (App.tsx lines 278-326): the found
slot is written into `scheduledTime` and the event appended to the placed list;
if no slot exists in the horizon the event is appended with `isScheduled :=
false` (the spread `{ ...event, isScheduled: false }` keeps every other field,
including any pre-existing `scheduledTime`). -/
def placeFlexible (today : ℕ) (placed : List Event) (e : Event) : List Event :=
  match firstFreeSlot today placed e.duration with
  | some dt => placed ++ [{ e with scheduledTime := some dt, isScheduled := true }]
  | none => placed ++ [{ e with isScheduled := false }]

/-- Comparator order of `events.sort((a, b) => a.priority - b.priority)`. -/
def priRel (a b : Event) : Prop := a.priority ≤ b.priority

instance : DecidableRel priRel := fun a b => inferInstanceAs (Decidable (a.priority ≤ b.priority))

instance : IsTotal Event priRel := ⟨fun a b => Int.le_total a.priority b.priority⟩

instance : IsTrans Event priRel := ⟨fun _ _ _ => Int.le_trans⟩

/-- The sort step `[...events].sort((a, b) => a.priority - b.priority)`
(App.tsx line 177).  ECMAScript `Array.prototype.sort` is specified to be
stable, and with the consistent comparator `a.priority - b.priority` every
stable ascending sort produces the same list, so insertion sort is a faithful
model. -/
def sortByPriority (events : List Event) : List Event :=
  events.insertionSort priRel

/-- The anchored filter (App.tsx line 180):
`event.type === 'mandatory' || event.fixedTime`. -/
def isAnchoredEvent (e : Event) : Bool :=
  (match e.type with | .mandatory => true | _ => false) || e.fixedTime.isSome

/-- The flexible filter (App.tsx line 181):
`event.type === 'flexible' && !event.fixedTime`. -/
def isFlexibleEvent (e : Event) : Bool :=
  (match e.type with | .flexible => true | _ => false) && e.fixedTime.isNone

/-- `localOptimize` (App.tsx lines 172-340), as a function of the current day
(`new Date()` at the moment the button is pressed) and the event list. -/
def localOptimize (today : ℕ) (events : List Event) : List Event :=
  let optimized := sortByPriority events
  let fixedEvents := optimized.filter isAnchoredEvent
  let flexibleEvents := optimized.filter isFlexibleEvent
  let scheduledFixed := fixedEvents.map (scheduleFixed today)
  flexibleEvents.foldl (placeFlexible today) scheduledFixed

/-- Half-open interval overlap, as written in `findConflicts`
(src/unnamed/part_000 line 471: `!(end1 <= start2 || end2 <= start1)`) and as
the spec's `overlaps` utility. -/
def overlaps (s1 e1 s2 e2 : ℕ) : Bool :=
  !(decide (e1 ≤ s2) || decide (e2 ≤ s1))

/-- Anchored classification as the claim under study words it: kind `fixed` or
`mandatory`, or a `dayOfWeek` present.  Stated from the claim text, for
comparison against the source's `isAnchoredEvent`. -/
def anchoredPerClaim (e : Event) : Bool :=
  (match e.type with | .flexible => false | _ => true) || e.dayOfWeek.isSome

/-! ## The vanilla-JS front end (src/unnamed/part_000, `CalendarOptimizer`)

Its events are plain JS objects with snake_case fields.  Instants are absolute
minutes (`ℤ`), matching JS millisecond timestamps up to the fixed 60000 scale
factor used throughout that file (`duration * 60000`, `15 * 60000`).  Events in
that file are created without a `day_of_week` field, but objects are dynamic,
so the field is carried here as an `Option`; none of the part_000 logic ever
reads it. -/

structure JSEvent where
  id : ℕ
  title : String
  duration : ℕ
  priority : ℤ
  scheduled_time : Option ℤ
  fixed_time : Option ℤ
  earliest_start : Option ℤ
  latest_start : Option ℤ
  day_of_week : Option ℕ
deriving DecidableEq

/-- The `this.calendar` bounds built in `initCalendar` (8 AM and 6 PM of the
current day, as absolute minutes). -/
structure JSCalendar where
  startDate : ℤ
  endDate : ℤ
deriving DecidableEq

/-- The conflict test inside `findAvailableSlot` (part_000 lines 284-289) for
one scheduled event: `!(eventEnd <= scheduledStart || currentTime >=
scheduledEnd)`.  `new Date(scheduled.scheduled_time)` of a missing value is the
epoch, i.e. 0; every caller only passes events whose `scheduled_time` is set. -/
def jsSlotConflict (current fin : ℤ) (s : JSEvent) : Bool :=
  let ss := s.scheduled_time.getD 0
  !(decide (fin ≤ ss) || decide (current ≥ ss + (s.duration : ℤ)))

/-- The `while (currentTime <= endConstraint)` loop of `findAvailableSlot`
(part_000 lines 278-299), stepping 15 minutes.  `fuel` is an upper bound on the
number of iterations, fixed by the caller to cover the whole window, so the
`fuel = 0` base case is never the reason a search stops (see
`findSlotLoop_fuel_enough`). -/
def findSlotLoop (cal : JSCalendar) (dur : ℕ) (scheduled : List JSEvent)
    (endC : ℤ) : ℕ → ℤ → Option ℤ
  | 0, _ => none
  | fuel + 1, current =>
      if current ≤ endC then
        let fin := current + (dur : ℤ)
        if !scheduled.any (jsSlotConflict current fin) ∧
            cal.startDate ≤ current ∧ fin ≤ cal.endDate then
          some current
        else
          findSlotLoop cal dur scheduled endC fuel (current + 15)
      else none

/-- `findAvailableSlot(event, scheduledEvents)` (part_000 lines 269-302):
start at `fixed_time`, else `earliest_start`, else the calendar start; stop at
`latest_start`, else `endDate - duration`; return the first 15-minute step that
is conflict-free and inside the calendar band. -/
def findAvailableSlot (cal : JSCalendar) (ev : JSEvent) (scheduled : List JSEvent) : Option ℤ :=
  let startTime : ℤ :=
    match ev.fixed_time with
    | some t => t
    | none =>
        match ev.earliest_start with
        | some t => t
        | none => cal.startDate
  let endC : ℤ :=
    match ev.latest_start with
    | some t => t
    | none => cal.endDate - (ev.duration : ℤ)
  findSlotLoop cal ev.duration scheduled endC ((endC + 15 - startTime).toNat) startTime

/-- The pairwise overlap test of `findConflicts` (part_000 line 471):
`!(end1 <= start2 || end2 <= start1)` on the concrete scheduled intervals. -/
def jsOverlap (e1 e2 : JSEvent) : Bool :=
  let s1 := e1.scheduled_time.getD 0
  let s2 := e2.scheduled_time.getD 0
  !(decide (s1 + (e1.duration : ℤ) ≤ s2) || decide (s2 + (e2.duration : ℤ) ≤ s1))

/-- The double loop of `findConflicts` (part_000 lines 461-475): every ordered
pair `(i, j)` with `i < j` whose intervals overlap, in loop order. -/
def conflictPairs : List JSEvent → List (JSEvent × JSEvent)
  | [] => []
  | x :: xs =>
      (xs.filterMap fun y => if jsOverlap x y then some (x, y) else none) ++ conflictPairs xs

/-- `findConflicts()` (part_000 lines 457-478): only events with a
`scheduled_time` participate. -/
def findConflicts (events : List JSEvent) : List (JSEvent × JSEvent) :=
  conflictPairs (events.filter (·.scheduled_time.isSome))

/-! ## `getNextWeekday` (src/frontend/src/utils/nlp.ts lines 463-472) -/

/-- `getNextWeekday(date, targetDay)`: `daysToAdd = targetDay - date.getDay()`,
bumped by 7 when `daysToAdd <= 0`, then `addDays(date, daysToAdd)`. -/
def getNextWeekday (date : ℕ) (targetDay : ℕ) : ℕ :=
  let currentDay : ℤ := weekday date
  let daysToAdd : ℤ := targetDay - currentDay
  let daysToAdd := if daysToAdd ≤ 0 then daysToAdd + 7 else daysToAdd
  date + daysToAdd.toNat

/-! ## `EventForm.handleSubmit` validation (src/unnamed/part_003 lines 25-115)

Form field values: `datetime-local` inputs are modelled as `Option ℤ` (absolute
minutes; `none` is the empty string), and the window check
`latest.getTime() - earliest.getTime() < duration * 60 * 1000` becomes
`latest - earliest < duration` after dividing by the 60000 ms/minute factor. -/

structure FormData where
  title : String
  duration : ℤ
  priority : ℤ
  type : EventType
  earliestStart : Option ℤ
  latestStart : Option ℤ
  fixedTime : Option ℤ
deriving DecidableEq

/-- The window fields after the defaulting step (part_003 lines 43-57): a
flexible form with both window fields empty gets tomorrow 9 AM / 5 PM written
into `formData` (passed in here as `dE`/`dL` since they depend on the clock). -/
def effectiveWindow (dE dL : ℤ) (fd : FormData) : Option ℤ × Option ℤ :=
  if fd.type = EventType.flexible ∧ fd.earliestStart = none ∧ fd.latestStart = none then
    (some dE, some dL)
  else
    (fd.earliestStart, fd.latestStart)

/-- The keys of the `newErrors` object built by `handleSubmit` (part_003 lines
29-72).  The two window checks write the same `latestStart` key, so that key is
present iff either fails. -/
def formErrorKeys (dE dL : ℤ) (fd : FormData) : List String :=
  (if fd.title.trim = "" then ["title"] else []) ++
  (if fd.duration < 15 then ["duration"] else []) ++
  (if fd.type = EventType.fixed ∧ fd.fixedTime = none then ["fixedTime"] else []) ++
  (if fd.type = EventType.flexible then
    match effectiveWindow dE dL fd with
    | (some earliest, some latest) =>
        if earliest ≥ latest ∨ latest - earliest < fd.duration then ["latestStart"] else []
    | _ => []
  else [])

/-- `handleSubmit` outcome: when `newErrors` is non-empty the handler sets the
errors and returns without calling `onEventCreate`; otherwise the event is
created from the (possibly defaulted) form data. -/
def handleSubmit (dE dL : ℤ) (fd : FormData) : Option FormData :=
  if formErrorKeys dE dL fd = [] then
    let (es, ls) := effectiveWindow dE dL fd
    some { fd with earliestStart := es, latestStart := ls }
  else none

/-! ## Concrete inputs used by the counterexamples and witnesses

Day 4 is a Monday (`weekday 4 = 1`), so `today := 4` below models pressing
"Optimize" on a Monday. -/

/-- A plain flexible event of the given id and duration: priority 2, no
constraints, unscheduled — exactly what `handleEventCreate`'s local fallback
produces for a default form entry. -/
def mkFlex (i d : ℕ) : Event :=
  { id := i, title := "", duration := d, priority := 2, type := .flexible,
    scheduledTime := none, earliestStart := none, latestStart := none,
    fixedTime := none, dayOfWeek := none, isScheduled := false }

/-- A flexible event declaring the window 9:00 of day 100 to 9:00 of day 101
(both `earliestStart` and `latestStart` present). -/
def evWin : Event :=
  { mkFlex 9 60 with earliestStart := some ⟨100, 540⟩, latestStart := some ⟨101, 540⟩ }

/-- A recurring mandatory event on weekday `w` at fixed time 8:00 lasting 720
minutes — it occupies the whole 8:00-20:00 working band of that weekday. -/
def blocker (w : ℕ) : Event :=
  { id := 10 + w, title := "", duration := 720, priority := 2, type := .mandatory,
    scheduledTime := none, earliestStart := none, latestStart := none,
    fixedTime := some (some ⟨8, 0, none⟩), dayOfWeek := some w, isScheduled := false }

/-- A flexible event that already carries a `scheduledTime` from an earlier
pass (Monday 8:00), fed back into the optimizer. -/
def evStale : Event := { mkFlex 20 30 with scheduledTime := some ⟨4, 480⟩ }

/-- A flexible-kind event carrying `dayOfWeek = 1` and no `fixedTime`. -/
def evDow : Event := { mkFlex 30 60 with dayOfWeek := some 1 }

/-- A flexible event whose declared window is empty (`earliestStart` =
`latestStart`) while its duration is 30 — the spec's Scenario 3 shape. -/
def evBadWin : Event :=
  { mkFlex 40 30 with earliestStart := some ⟨5, 600⟩, latestStart := some ⟨5, 600⟩ }

/-- A fixed-kind event with no `fixedTime` value. -/
def evFixedNoTime : Event := { mkFlex 50 60 with type := .fixed }

/-- Scenario 1's "Math": recurring on Monday (`day_of_week = 1`) at 9:00
(minute 540) for 60 minutes, with no `scheduled_time` — recurrence is
structural, as the App.tsx optimizer leaves `scheduledTime` unset for
recurring events. -/
def mathEv : JSEvent :=
  { id := 1, title := "", duration := 60, priority := 2,
    scheduled_time := none, fixed_time := some 540, earliest_start := none,
    latest_start := none, day_of_week := some 1 }

/-- Scenario 1's "Physics": Monday 9:30 (minute 570), 60 minutes. -/
def physEv : JSEvent := { mathEv with id := 2, fixed_time := some 570 }

/-- The part_000 calendar band: 8:00 to 18:00 of day 0. -/
def jsCal : JSCalendar := ⟨480, 1080⟩

/-- A part_000 flexible event with window minutes 500 to 900, duration 60. -/
def jsEv : JSEvent :=
  { id := 3, title := "", duration := 60, priority := 2,
    scheduled_time := none, fixed_time := none, earliest_start := some 500,
    latest_start := some 900, day_of_week := none }

/-- Scenario 3 as a form submission: flexible, duration 30, `earliestStart` =
`latestStart`. -/
def fdS3 : FormData :=
  { title := "Study", duration := 30, priority := 2,
    type := .flexible, earliestStart := some 1000, latestStart := some 1000, fixedTime := none }

/-! ## Helper lemmas: the slot search -/

/-- A day offset the search skips (`tryDay.getDay() === 0 || === 6`). -/
def isWeekend (d : ℕ) : Prop := weekday d = 0 ∨ weekday d = 6

instance (d : ℕ) : Decidable (isWeekend d) := inferInstanceAs (Decidable (_ ∨ _))

/-- Day `today + off` offers no conflict-free candidate minute at all. -/
def dayFull (today : ℕ) (placed : List Event) (dur off : ℕ) : Prop :=
  ∀ hm ∈ candidateMinutes dur, hasConflict placed (today + off) hm dur = true

theorem mem_candidateMinutes {dur hm : ℕ} :
    hm ∈ candidateMinutes dur ↔ (∃ k, k < 25 ∧ hm = 480 + 30 * k) ∧ hm + dur ≤ 1200 := by
  simp only [candidateMinutes, List.mem_filter, List.mem_map, List.mem_range,
    decide_eq_true_eq]
  constructor
  · rintro ⟨⟨k, hk, rfl⟩, h⟩
    exact ⟨⟨k, hk, rfl⟩, h⟩
  · rintro ⟨⟨k, hk, rfl⟩, h⟩
    exact ⟨⟨k, hk, rfl⟩, h⟩

theorem candidateMinutes_bounds {dur hm : ℕ} (h : hm ∈ candidateMinutes dur) :
    480 ≤ hm ∧ hm ≤ 1200 ∧ hm + dur ≤ 1200 := by
  obtain ⟨⟨k, hk, rfl⟩, hle⟩ := mem_candidateMinutes.1 h
  omega

theorem candidateMinutes_sorted (dur : ℕ) : (candidateMinutes dur).Pairwise (· < ·) := by
  apply List.Pairwise.filter
  apply List.pairwise_map.2
  have := List.pairwise_lt_range 25
  exact this.imp (by omega)

/-- In a `<`-sorted list split as `as ++ b :: bs`, every member smaller than
`b` lies in `as`. -/
theorem mem_left_of_lt_of_sorted {l as bs : List ℕ} {b x : ℕ}
    (hdec : l = as ++ b :: bs) (hs : l.Pairwise (· < ·)) (hx : x ∈ l) (hlt : x < b) :
    x ∈ as := by
  subst hdec
  rcases List.mem_append.1 hx with h | h
  · exact h
  · rcases List.mem_cons.1 h with rfl | h
    · omega
    · have := (List.pairwise_append.1 hs).2.1
      have hb := (List.pairwise_cons.1 this).1 x h
      omega

theorem searchDays_eq_some {today dur : ℕ} {placed : List Event} {offs : List ℕ}
    {dt : DateTime} (h : searchDays today placed dur offs = some dt) :
    ∃ offs1 off offs2, offs = offs1 ++ off :: offs2 ∧
      (∀ o ∈ offs1, isWeekend (today + o) ∨ dayFull today placed dur o) ∧
      ¬ isWeekend (today + off) ∧
      dt.day = today + off ∧
      dt.minute ∈ candidateMinutes dur ∧
      hasConflict placed (today + off) dt.minute dur = false ∧
      (∀ hm ∈ candidateMinutes dur, hm < dt.minute →
        hasConflict placed (today + off) hm dur = true) := by
  induction offs with
  | nil => simp [searchDays] at h
  | cons off rest ih =>
    rw [searchDays] at h
    by_cases hw : weekday (today + off) = 0 ∨ weekday (today + off) = 6
    · rw [if_pos hw] at h
      obtain ⟨offs1, o, offs2, hdec, h1, h2, h3, h4, h5, h6⟩ := ih h
      exact ⟨off :: offs1, o, offs2, by rw [hdec]; rfl,
        fun o' ho' => by
          rcases List.mem_cons.1 ho' with rfl | ho'
          · exact Or.inl hw
          · exact h1 o' ho',
        h2, h3, h4, h5, h6⟩
    · rw [if_neg hw] at h
      cases hf : (candidateMinutes dur).find? (fun hm => !hasConflict placed (today + off) hm dur) with
      | some hm =>
        rw [hf] at h
        obtain rfl : (⟨today + off, hm⟩ : DateTime) = dt := by
          simpa using h
        obtain ⟨hp, as, bs, hdec, hprev⟩ := List.find?_eq_some.1 hf
        refine ⟨[], off, rest, rfl, by simp, hw, rfl, ?_, ?_, ?_⟩
        · rw [hdec]; exact List.mem_append.2 (Or.inr (List.mem_cons_self _ _))
        · simpa using hp
        · intro hm' hmem hlt
          have hin : hm' ∈ as :=
            mem_left_of_lt_of_sorted hdec (candidateMinutes_sorted dur) hmem hlt
          have := hprev hm' hin
          simpa using this
      | none =>
        rw [hf] at h
        obtain ⟨offs1, o, offs2, hdec, h1, h2, h3, h4, h5, h6⟩ := ih h
        refine ⟨off :: offs1, o, offs2, by rw [hdec]; rfl, ?_, h2, h3, h4, h5, h6⟩
        intro o' ho'
        rcases List.mem_cons.1 ho' with rfl | ho'
        · refine Or.inr (fun hm hmem => ?_)
          have := List.find?_eq_none.1 hf hm hmem
          simpa using this
        · exact h1 o' ho'

theorem searchDays_eq_none {today dur : ℕ} {placed : List Event} {offs : List ℕ}
    (h : searchDays today placed dur offs = none) :
    ∀ o ∈ offs, isWeekend (today + o) ∨ dayFull today placed dur o := by
  induction offs with
  | nil => simp
  | cons off rest ih =>
    rw [searchDays] at h
    intro o ho
    by_cases hw : weekday (today + off) = 0 ∨ weekday (today + off) = 6
    · rw [if_pos hw] at h
      rcases List.mem_cons.1 ho with rfl | ho
      · exact Or.inl hw
      · exact ih h o ho
    · rw [if_neg hw] at h
      cases hf : (candidateMinutes dur).find? (fun hm => !hasConflict placed (today + off) hm dur) with
      | some hm => rw [hf] at h; simp at h
      | none =>
        rw [hf] at h
        rcases List.mem_cons.1 ho with rfl | ho
        · refine Or.inr (fun hm hmem => ?_)
          have := List.find?_eq_none.1 hf hm hmem
          simpa using this
        · exact ih h o ho

/-- Splitting `List.range 14` around an element: the prefix holds exactly the
smaller offsets. -/
theorem range_split_lt {off o : ℕ} {offs1 offs2 : List ℕ}
    (hdec : List.range 14 = offs1 ++ off :: offs2) (ho : o < off) (ho14 : o < 14) :
    o ∈ offs1 := by
  have hmem : o ∈ List.range 14 := List.mem_range.2 ho14
  exact mem_left_of_lt_of_sorted hdec (List.pairwise_lt_range 14) hmem ho

/-- Success of the 14-day search: the returned instant is a weekday candidate
in the horizon, conflict-free, and chronologically minimal among all
conflict-free weekday candidates of the horizon. -/
theorem firstFreeSlot_eq_some {today dur : ℕ} {placed : List Event} {dt : DateTime}
    (h : firstFreeSlot today placed dur = some dt) :
    (∃ off, off < 14 ∧ dt.day = today + off) ∧
    ¬ isWeekend dt.day ∧
    dt.minute ∈ candidateMinutes dur ∧
    hasConflict placed dt.day dt.minute dur = false ∧
    (∀ off hm, off < 14 → ¬ isWeekend (today + off) → hm ∈ candidateMinutes dur →
      (today + off) * 1440 + hm < dt.toMin →
      hasConflict placed (today + off) hm dur = true) := by
  obtain ⟨offs1, off, offs2, hdec, hskip, hw, hday, hmem, hfree, hmin⟩ :=
    searchDays_eq_some h
  have hoff14 : off < 14 := by
    have : off ∈ List.range 14 := by
      rw [hdec]; exact List.mem_append.2 (Or.inr (List.mem_cons_self _ _))
    exact List.mem_range.1 this
  refine ⟨⟨off, hoff14, hday⟩, hday ▸ hw, hmem, hday ▸ hfree, ?_⟩
  intro off' hm' h14 hw' hmem' hlt
  rcases Nat.lt_trichotomy off' off with hc | rfl | hc
  · have hin : off' ∈ offs1 := range_split_lt hdec hc h14
    rcases hskip off' hin with hwk | hfull
    · exact absurd hwk hw'
    · exact hfull hm' hmem'
  · apply hmin hm' hmem'
    simp only [DateTime.toMin, hday] at hlt
    omega
  · exfalso
    have h1 := candidateMinutes_bounds hmem'
    have h2 := candidateMinutes_bounds hmem
    simp only [DateTime.toMin, hday] at hlt
    have : today + off + 1 ≤ today + off' := by omega
    nlinarith [hlt, h1.1, h2.2.1]

/-- Failure of the 14-day search: every weekday candidate in the horizon
conflicts. -/
theorem firstFreeSlot_eq_none {today dur : ℕ} {placed : List Event}
    (h : firstFreeSlot today placed dur = none) :
    ∀ off hm, off < 14 → ¬ isWeekend (today + off) → hm ∈ candidateMinutes dur →
      hasConflict placed (today + off) hm dur = true := by
  intro off hm h14 hw hmem
  rcases searchDays_eq_none h off (List.mem_range.2 h14) with hwk | hfull
  · exact absurd hwk hw
  · exact hfull hm hmem

/-! ## Helper lemmas: shape of the optimizer's output -/

/-- Every event in the folded output comes from the initial placed list or is
the placed/unplaced record of one of the flexible events. -/
theorem mem_foldl_placeFlexible {today : ℕ} :
    ∀ (l init : List Event) (e' : Event),
      e' ∈ l.foldl (placeFlexible today) init →
      e' ∈ init ∨ ∃ e ∈ l,
        (∃ P dt, firstFreeSlot today P e.duration = some dt ∧
          e' = { e with scheduledTime := some dt, isScheduled := true }) ∨
        e' = { e with isScheduled := false } := by
  intro l
  induction l with
  | nil => intro init e' h; exact Or.inl h
  | cons x xs ih =>
    intro init e' h
    rw [List.foldl_cons] at h
    rcases ih (placeFlexible today init x) e' h with hin | ⟨e, he, hcase⟩
    · rw [placeFlexible] at hin
      cases hslot : firstFreeSlot today init x.duration with
      | some dt =>
        rw [hslot] at hin
        rcases List.mem_append.1 hin with hin | hin
        · exact Or.inl hin
        · refine Or.inr ⟨x, List.mem_cons_self _ _, Or.inl ⟨init, dt, hslot, ?_⟩⟩
          simpa using hin
      | none =>
        rw [hslot] at hin
        rcases List.mem_append.1 hin with hin | hin
        · exact Or.inl hin
        · exact Or.inr ⟨x, List.mem_cons_self _ _, Or.inr (by simpa using hin)⟩
    · exact Or.inr ⟨e, List.mem_cons_of_mem _ he, hcase⟩

theorem scheduleFixed_id (today : ℕ) (e : Event) : (scheduleFixed today e).id = e.id := by
  rw [scheduleFixed]
  split
  · rfl
  · split <;> rfl

theorem scheduleFixed_type (today : ℕ) (e : Event) : (scheduleFixed today e).type = e.type := by
  rw [scheduleFixed]
  split
  · rfl
  · split <;> rfl

theorem scheduleFixed_fixedTime (today : ℕ) (e : Event) :
    (scheduleFixed today e).fixedTime = e.fixedTime := by
  rw [scheduleFixed]
  split
  · rfl
  · split <;> rfl

theorem anchored_not_flexible {e : Event} (h : isAnchoredEvent e = true) :
    isFlexibleEvent e = false := by
  cases ht : e.type <;> cases hf : e.fixedTime <;>
    simp_all [isAnchoredEvent, isFlexibleEvent]

/-- Every event of `localOptimize`'s output carries the id of an input event
that passed one of the two partition filters. -/
theorem localOptimize_mem_id {today : ℕ} {events : List Event} {e' : Event}
    (h : e' ∈ localOptimize today events) :
    ∃ e0 ∈ events, e'.id = e0.id ∧
      (isAnchoredEvent e0 = true ∨ isFlexibleEvent e0 = true) := by
  rw [localOptimize] at h
  rcases mem_foldl_placeFlexible _ _ _ h with hin | ⟨e, he, hcase⟩
  · obtain ⟨e0, he0, rfl⟩ := List.mem_map.1 hin
    have h1 := List.mem_filter.1 he0
    exact ⟨e0, (List.mem_insertionSort priRel).1 h1.1, scheduleFixed_id today e0, Or.inl h1.2⟩
  · have h1 := List.mem_filter.1 he
    refine ⟨e, (List.mem_insertionSort priRel).1 h1.1, ?_, Or.inr h1.2⟩
    rcases hcase with ⟨P, dt, _, rfl⟩ | rfl <;> rfl

/-! ## Helper lemmas: stability of the priority sort -/

/-- `orderedInsert` places `a` in front of the first element it is `≤`, so on
the sub-sequence of any fixed priority `p` it prepends `a` (when `a` has
priority `p`) or is invisible. -/
theorem filter_orderedInsert (p : ℤ) (a : Event) :
    ∀ l : List Event,
      (l.orderedInsert priRel a).filter (fun e => decide (e.priority = p)) =
        if a.priority = p then
          a :: l.filter (fun e => decide (e.priority = p))
        else l.filter (fun e => decide (e.priority = p)) := by
  intro l
  induction l with
  | nil => simp [List.orderedInsert, List.filter]; split <;> simp_all
  | cons b l ih =>
    rw [List.orderedInsert]
    by_cases hr : priRel a b
    · rw [if_pos hr]
      by_cases hap : a.priority = p
      · simp [List.filter, hap]
      · simp [List.filter, hap]
    · rw [if_neg hr]
      have hab : b.priority < a.priority := by
        simpa [priRel, not_le] using hr
      by_cases hap : a.priority = p
      · have hbp : ¬ b.priority = p := by omega
        simp [List.filter_cons, hap, hbp, ih]
      · by_cases hbp : b.priority = p
        · simp [List.filter_cons, hap, hbp, ih]
        · simp [List.filter_cons, hap, hbp, ih]

theorem filter_sortByPriority (p : ℤ) (l : List Event) :
    (sortByPriority l).filter (fun e => decide (e.priority = p)) =
      l.filter (fun e => decide (e.priority = p)) := by
  induction l with
  | nil => rfl
  | cons a l ih =>
    rw [sortByPriority, List.insertionSort, filter_orderedInsert]
    by_cases hap : a.priority = p
    · rw [if_pos hap, List.filter_cons, if_pos (by simpa using hap)]
      rw [sortByPriority] at ih
      rw [ih]
    · rw [if_neg hap, List.filter_cons, if_neg (by simpa using hap)]
      rw [sortByPriority] at ih
      rw [ih]

/-! ## Helper lemmas: partitions and conflict pairs -/

theorem isAnchoredEvent_iff {e : Event} :
    isAnchoredEvent e = true ↔ e.type = EventType.mandatory ∨ e.fixedTime ≠ none := by
  cases ht : e.type <;> cases hf : e.fixedTime <;> simp_all [isAnchoredEvent]

theorem isFlexibleEvent_iff {e : Event} :
    isFlexibleEvent e = true ↔ e.type = EventType.flexible ∧ e.fixedTime = none := by
  cases ht : e.type <;> cases hf : e.fixedTime <;> simp_all [isFlexibleEvent]

/-- Membership characterization of the `findConflicts` double loop: a pair is
produced exactly when its first component occurs strictly before its second in
the scanned list and the overlap test passes. -/
theorem mem_conflictPairs :
    ∀ (l : List JSEvent) (p : JSEvent × JSEvent),
      p ∈ conflictPairs l ↔
        ∃ l1 l2 l3, l = l1 ++ p.1 :: l2 ++ p.2 :: l3 ∧ jsOverlap p.1 p.2 = true := by
  intro l
  induction l with
  | nil =>
    intro p
    simp only [conflictPairs, List.not_mem_nil, false_iff]
    rintro ⟨l1, l2, l3, h, -⟩
    exact absurd h (by simp)
  | cons x xs ih =>
    intro p
    rw [conflictPairs, List.mem_append]
    constructor
    · rintro (hin | hin)
      · obtain ⟨y, hy, hif⟩ := List.mem_filterMap.1 hin
        by_cases hov : jsOverlap x y = true
        · rw [if_pos hov] at hif
          obtain rfl : (x, y) = p := by simpa using hif
          obtain ⟨l2, l3, rfl⟩ := List.append_of_mem hy
          exact ⟨[], l2, l3, rfl, hov⟩
        · rw [if_neg hov] at hif
          simp at hif
      · obtain ⟨l1, l2, l3, hdec, hov⟩ := (ih p).1 hin
        exact ⟨x :: l1, l2, l3, by rw [hdec]; rfl, hov⟩
    · rintro ⟨l1, l2, l3, hdec, hov⟩
      cases l1 with
      | nil =>
        simp only [List.nil_append, List.cons.injEq] at hdec
        obtain ⟨rfl, rfl⟩ := hdec
        refine Or.inl (List.mem_filterMap.2 ⟨p.2, ?_, ?_⟩)
        · exact List.mem_append.2 (Or.inr (List.mem_cons_self _ _))
        · rw [if_pos hov]
      | cons z l1 =>
        simp only [List.cons_append, List.cons.injEq] at hdec
        obtain ⟨rfl, hdec⟩ := hdec
        exact Or.inr ((ih p).2 ⟨l1, l2, l3, hdec, hov⟩)

/-! ## Helper lemmas: the part_000 while loop -/

/-- A successful step of the `findAvailableSlot` loop starts no earlier than
the probe it began at and never passes `endConstraint`. -/
theorem findSlotLoop_some_bounds {cal : JSCalendar} {dur : ℕ} {sch : List JSEvent}
    {endC : ℤ} :
    ∀ (fuel : ℕ) (current t : ℤ),
      findSlotLoop cal dur sch endC fuel current = some t →
      current ≤ t ∧ t ≤ endC := by
  intro fuel
  induction fuel with
  | zero => intro current t h; simp [findSlotLoop] at h
  | succ fuel ih =>
    intro current t h
    rw [findSlotLoop] at h
    by_cases hle : current ≤ endC
    · rw [if_pos hle] at h
      by_cases hok : (!sch.any (jsSlotConflict current (current + (dur : ℤ)))) ∧
          cal.startDate ≤ current ∧ current + (dur : ℤ) ≤ cal.endDate
      · rw [if_pos hok] at h
        obtain rfl : current = t := by simpa using h
        exact ⟨le_refl _, hle⟩
      · rw [if_neg hok] at h
        have := ih (current + 15) t h
        constructor <;> omega
    · rw [if_neg hle] at h
      simp at h

/-! ## Claim theorems -/

/-- Claim C1 (the code violates it).  The claim: any two concretely-resolved
output events of the optimizer either are both anchored or have
non-overlapping occupied intervals `[start, start + duration)`.  On a Monday
(`today = 4`) with three flexible events of durations 30, 60 and 30 minutes,
`localOptimize` places them at 8:00, 8:30 and 9:00: the second (8:30-9:30) and
third (9:00-9:30) overlap even though neither is anchored, because
`hasConflict` reads only `getHours()` of an existing `scheduledTime` and so
treats the 8:30 event as occupying 8:00-9:00. -/
theorem c1_no_overlap_violated :
    (localOptimize 4 [mkFlex 1 30, mkFlex 2 60, mkFlex 3 30]).map
        (fun e => (e.id, e.scheduledTime, e.isScheduled)) =
      [(1, some ⟨4, 480⟩, true), (2, some ⟨4, 510⟩, true), (3, some ⟨4, 540⟩, true)] ∧
    overlaps (DateTime.toMin ⟨4, 510⟩) (DateTime.toMin ⟨4, 510⟩ + 60)
      (DateTime.toMin ⟨4, 540⟩) (DateTime.toMin ⟨4, 540⟩ + 30) = true ∧
    isFlexibleEvent (mkFlex 2 60) = true ∧ isFlexibleEvent (mkFlex 3 30) = true := by
  exact ⟨by decide, by decide, by decide, by decide⟩

/-- Claim C2, counterexample.  `localOptimize` ignores `earliestStart` and
`latestStart` entirely: the flexible event `evWin`, whose declared window is
day 100 to day 101, is scheduled at 8:00 of day 4 — strictly before its
window. -/
theorem c2_localOptimize_ignores_window :
    localOptimize 4 [evWin] =
      [{ evWin with scheduledTime := some ⟨4, 480⟩, isScheduled := true }] ∧
    evWin.earliestStart = some ⟨100, 540⟩ ∧ evWin.latestStart = some ⟨101, 540⟩ ∧
    DateTime.toMin ⟨4, 480⟩ < DateTime.toMin ⟨100, 540⟩ := by
  exact ⟨by decide, by decide, by decide, by decide⟩

/-- Claim C2, amended part: the part_000 slot finder does respect a declared
window — any slot `findAvailableSlot` returns for an event without
`fixed_time` that declares both bounds lies in `[earliest_start,
latest_start]`. -/
theorem c2_findAvailableSlot_within_window (cal : JSCalendar) (ev : JSEvent)
    (placed : List JSEvent) (es ls t : ℤ)
    (hf : ev.fixed_time = none) (he : ev.earliest_start = some es)
    (hl : ev.latest_start = some ls)
    (h : findAvailableSlot cal ev placed = some t) :
    es ≤ t ∧ t ≤ ls := by
  simp only [findAvailableSlot, hf, he, hl] at h
  exact findSlotLoop_some_bounds _ _ _ h

/-- Witness for C2's amended theorem at a concrete input: `jsEv` declares the
window `[500, 900]` and `findAvailableSlot` returns minute 500. -/
theorem c2_window_witness : (500 : ℤ) ≤ 500 ∧ (500 : ℤ) ≤ 900 :=
  c2_findAvailableSlot_within_window jsCal jsEv [] 500 900 500 rfl rfl rfl (by decide)

/-- Claim C3, counterexample.  When no candidate in the horizon is
conflict-free, the event is returned with `isScheduled = false` but not
"with no scheduledTime": the spread `{ ...event, isScheduled: false }` keeps a
pre-existing `scheduledTime`.  Five recurring blockers fill 8:00-20:00 of
every weekday, so the stale-timed flexible event finds no slot, yet its old
`scheduledTime` (day 4, 8:00) survives in the output. -/
theorem c3_stale_time_kept :
    (localOptimize 4 [blocker 1, blocker 2, blocker 3, blocker 4, blocker 5, evStale]).map
        (fun e => (e.id, e.scheduledTime, e.isScheduled)) =
      [(11, none, true), (12, none, true), (13, none, true), (14, none, true),
       (15, none, true), (20, some ⟨4, 480⟩, false)] := by
  decide

/-- Claim C4, counterexample.  A flexible-kind event carrying `dayOfWeek = 1`
and no `fixedTime` is anchored according to the claim's partition rule but is
put in the flexible partition by the code and slot-searched: `localOptimize`
assigns it a fresh `scheduledTime` (Monday 8:00). -/
theorem c4_dayOfWeek_not_anchored :
    anchoredPerClaim evDow = true ∧ isAnchoredEvent evDow = false ∧
    isFlexibleEvent evDow = true ∧
    localOptimize 4 [evDow] =
      [{ evDow with scheduledTime := some ⟨4, 480⟩, isScheduled := true }] := by
  exact ⟨by decide, by decide, by decide, by decide⟩

/-- Claim C4, amended.  The optimizer's partition is: anchored exactly when
the kind is `mandatory` or a `fixedTime` is present, flexible exactly when the
kind is `flexible` and no `fixedTime` is present; `dayOfWeek` plays no role in
the partition. -/
theorem c4_partition_characterization (events : List Event) (e : Event) :
    (e ∈ (sortByPriority events).filter isAnchoredEvent ↔
      e ∈ events ∧ (e.type = EventType.mandatory ∨ e.fixedTime ≠ none)) ∧
    (e ∈ (sortByPriority events).filter isFlexibleEvent ↔
      e ∈ events ∧ (e.type = EventType.flexible ∧ e.fixedTime = none)) := by
  constructor
  · rw [List.mem_filter, sortByPriority, List.mem_insertionSort, isAnchoredEvent_iff]
  · rw [List.mem_filter, sortByPriority, List.mem_insertionSort, isFlexibleEvent_iff]

/-- Claim C5.  The optimizer's first step sorts the full event list ascending
by numeric priority with a stable sort: the result is a permutation of the
input, is pairwise ascending in `priority`, preserves the relative order of
events of any equal priority, and is literally the list the rest of
`localOptimize` consumes. -/
theorem c5_sort_stable_ascending (events : List Event) :
    (sortByPriority events).Perm events ∧
    (sortByPriority events).Sorted priRel ∧
    (∀ p : ℤ, (sortByPriority events).filter (fun e => decide (e.priority = p)) =
      events.filter (fun e => decide (e.priority = p))) ∧
    (∀ today : ℕ, localOptimize today events =
      ((sortByPriority events).filter isFlexibleEvent).foldl (placeFlexible today)
        (((sortByPriority events).filter isAnchoredEvent).map (scheduleFixed today))) :=
  ⟨List.perm_insertionSort priRel events, List.sorted_insertionSort priRel events,
    fun p => filter_sortByPriority p events, fun _ => rfl⟩

/-- Claim C10.  A fixed-kind event with no `fixedTime` passes neither the
anchored filter (`mandatory || fixedTime`) nor the flexible filter
(`flexible && !fixedTime`), so no output event of `localOptimize` carries its
id: it is silently dropped. -/
theorem c10_fixed_without_time_dropped (today : ℕ) (events : List Event) (e : Event)
    (_he : e ∈ events) (_ht : e.type = EventType.fixed) (_hf : e.fixedTime = none)
    (huniq : ∀ e2 ∈ events, e2.id = e.id →
      e2.type = EventType.fixed ∧ e2.fixedTime = none) :
    (localOptimize today events).filter (fun e' => decide (e'.id = e.id)) = [] := by
  rw [List.filter_eq_nil_iff]
  intro e' hmem hpid
  rw [decide_eq_true_eq] at hpid
  obtain ⟨e0, he0, hid, hpart⟩ := localOptimize_mem_id hmem
  obtain ⟨ht0, hf0⟩ := huniq e0 he0 (hid ▸ hpid)
  rcases hpart with hp | hp
  · rcases isAnchoredEvent_iff.1 hp with hm | hfne
    · rw [ht0] at hm; exact EventType.noConfusion hm
    · exact hfne hf0
  · obtain ⟨hfl, -⟩ := isFlexibleEvent_iff.1 hp
    rw [ht0] at hfl; exact EventType.noConfusion hfl

/-- Witness for C10 at a concrete input: a batch of a fixed-kind event with no
`fixedTime` (id 50) and an ordinary flexible event; no output event has id 50. -/
theorem c10_dropped_witness :
    (localOptimize 4 [evFixedNoTime, mkFlex 60 45]).filter
      (fun e' => decide (e'.id = evFixedNoTime.id)) = [] :=
  c10_fixed_without_time_dropped 4 [evFixedNoTime, mkFlex 60 45] evFixedNoTime
    (by decide) (by decide) (by decide) (by decide)

/-- Claim C3, amended.  For every flexible event and every already-placed set:
if the search succeeds, the assigned slot is a conflict-free weekday candidate
of the 14-day horizon and every chronologically earlier candidate conflicts
(candidates run earliest day first, earliest half-hour within the day); if no
candidate is conflict-free, the event is appended with `isScheduled = false`
and its fields otherwise unchanged — in particular a pre-existing
`scheduledTime` is retained, not removed. -/
theorem c3_slot_search_first_fit (today : ℕ) (placed : List Event) (e : Event) :
    (∀ dt : DateTime, firstFreeSlot today placed e.duration = some dt →
      hasConflict placed dt.day dt.minute e.duration = false ∧
      (∀ off hm, off < 14 → ¬ isWeekend (today + off) →
        hm ∈ candidateMinutes e.duration →
        (today + off) * 1440 + hm < dt.toMin →
        hasConflict placed (today + off) hm e.duration = true) ∧
      placeFlexible today placed e =
        placed ++ [{ e with scheduledTime := some dt, isScheduled := true }]) ∧
    (firstFreeSlot today placed e.duration = none →
      (∀ off hm, off < 14 → ¬ isWeekend (today + off) →
        hm ∈ candidateMinutes e.duration →
        hasConflict placed (today + off) hm e.duration = true) ∧
      placeFlexible today placed e = placed ++ [{ e with isScheduled := false }]) := by
  constructor
  · intro dt h
    obtain ⟨-, -, -, hfree, hmin⟩ := firstFreeSlot_eq_some h
    exact ⟨hfree, hmin, by rw [placeFlexible, h]⟩
  · intro h
    exact ⟨firstFreeSlot_eq_none h, by rw [placeFlexible, h]⟩

/-- Witness for C3's amended theorem at a concrete input: an unconstrained
30-minute flexible event against an empty placed set on a Monday is placed at
the very first candidate, Monday 8:00. -/
theorem c3_first_fit_witness :
    hasConflict [] 4 480 30 = false ∧
    placeFlexible 4 [] (mkFlex 1 30) =
      [] ++ [{ mkFlex 1 30 with scheduledTime := some ⟨4, 480⟩, isScheduled := true }] :=
  ⟨((c3_slot_search_first_fit 4 [] (mkFlex 1 30)).1 ⟨4, 480⟩ (by decide)).1,
   ((c3_slot_search_first_fit 4 [] (mkFlex 1 30)).1 ⟨4, 480⟩ (by decide)).2.2⟩

/-- Claim C6, counterexample.  Scenario 1's two recurring events — Monday 9:00
and Monday 9:30, 60 minutes each, same `day_of_week`, overlapping daily
intervals, no `scheduled_time` (recurrence is structural) — produce an empty
conflicts list, not the claimed single (Math, Physics) pair: `findConflicts`
only examines events with a `scheduled_time`. -/
theorem c6_recurring_not_reported :
    mathEv.day_of_week = some 1 ∧ physEv.day_of_week = some 1 ∧
    overlaps 540 600 570 630 = true ∧
    findConflicts [mathEv, physEv] = [] := by
  exact ⟨by decide, by decide, by decide, by decide⟩

/-- Claim C6, amended.  `findConflicts` reports a pair iff both members carry a
`scheduled_time`, the first precedes the second in the filtered list, and
their concrete intervals `[scheduled_time, scheduled_time + duration)`
overlap; `day_of_week` is never consulted, so recurring events without a
`scheduled_time` are never reported. -/
theorem c6_findConflicts_characterization (events : List JSEvent)
    (p : JSEvent × JSEvent) :
    p ∈ findConflicts events ↔
      ∃ l1 l2 l3,
        events.filter (·.scheduled_time.isSome) = l1 ++ p.1 :: l2 ++ p.2 :: l3 ∧
        jsOverlap p.1 p.2 = true :=
  mem_conflictPairs _ p

/-- Claim C7, counterexample.  The optimizer performs no validation at all: a
batch containing a flexible event whose declared window (`earliestStart` =
`latestStart`, width 0) is narrower than its 30-minute duration is processed
normally and both events of the batch are placed — nothing is rejected and no
error path exists. -/
theorem c7_optimizer_places_invalid_batch :
    evBadWin.earliestStart = evBadWin.latestStart ∧
    (localOptimize 4 [evBadWin, mkFlex 41 60]).map
        (fun e => (e.id, e.scheduledTime, e.isScheduled)) =
      [(40, some ⟨4, 480⟩, true), (41, some ⟨4, 510⟩, true)] := by
  exact ⟨by decide, by decide⟩

/-- Claim C7, amended.  The only window-narrower-than-duration check in the
repository is in `EventForm.handleSubmit`, which runs before event creation:
a flexible form whose declared window is narrower than its duration is
rejected (the handler records a `latestStart` error and never calls
`onEventCreate`). -/
theorem c7_form_window_check_rejects (dE dL : ℤ) (fd : FormData) (a b : ℤ)
    (ht : fd.type = EventType.flexible) (h1 : fd.earliestStart = some a)
    (h2 : fd.latestStart = some b) (hw : b - a < fd.duration) :
    handleSubmit dE dL fd = none := by
  have hwin : effectiveWindow dE dL fd = (fd.earliestStart, fd.latestStart) := by
    rw [effectiveWindow, if_neg]
    rintro ⟨-, hcon, -⟩
    rw [h1] at hcon
    exact Option.noConfusion hcon
  have hne : formErrorKeys dE dL fd ≠ [] := by
    rw [formErrorKeys, hwin, h1, h2, if_pos ht]
    simp [hw]
  rw [handleSubmit, if_neg hne]

/-- Witness for C7's amended theorem at Scenario 3's input: a flexible form
with `earliestStart` = `latestStart` and duration 30 is rejected. -/
theorem c7_scenario3_witness : handleSubmit 0 0 fdS3 = none :=
  c7_form_window_check_rejects 0 0 fdS3 1000 1000 rfl rfl rfl (by decide)

/-- Claim C8, counterexample.  Day 4 is itself a Monday (`weekday 4 = 1`), so
the claimed smallest day ≥ 4 with weekday 1 is 4, but `getNextWeekday 4 1`
returns 11 — the same weekday one week later, not the date unchanged. -/
theorem c8_same_day_not_returned :
    weekday 4 = 1 ∧ getNextWeekday 4 1 = 11 ∧ getNextWeekday 4 1 ≠ 4 := by
  exact ⟨by decide, by decide, by decide⟩

/-- Claim C8, amended.  `getNextWeekday` returns the smallest date strictly
greater than `fromDate` whose weekday equals the target (always 1 to 7 days
ahead); when `fromDate`'s own weekday already matches, the result is the same
weekday one week later, not `fromDate`. -/
theorem c8_getNextWeekday_strictly_future (d t : ℕ) (ht : t < 7) :
    d < getNextWeekday d t ∧ getNextWeekday d t ≤ d + 7 ∧
    weekday (getNextWeekday d t) = t ∧
    ∀ x, d < x → x < getNextWeekday d t → weekday x ≠ t := by
  simp only [getNextWeekday, weekday]
  split
  · refine ⟨by omega, by omega, by omega, fun x hx1 hx2 hxt => by omega⟩
  · refine ⟨by omega, by omega, by omega, fun x hx1 hx2 hxt => by omega⟩

/-- Witness for C8's amended theorem at the concrete input day 4 (a Monday),
target weekday 1. -/
theorem c8_monday_witness :
    4 < getNextWeekday 4 1 ∧ getNextWeekday 4 1 ≤ 4 + 7 ∧
    weekday (getNextWeekday 4 1) = 1 :=
  ⟨(c8_getNextWeekday_strictly_future 4 1 (by decide)).1,
   (c8_getNextWeekday_strictly_future 4 1 (by decide)).2.1,
   (c8_getNextWeekday_strictly_future 4 1 (by decide)).2.2.1⟩

/-- Claim C9.  A flexible-partition event (`type = flexible`, no `fixedTime`)
that the optimizer reports as scheduled never has a weekend `scheduledTime`:
the slot search skips every day whose weekday is 0 or 6, and a flexible event
is only marked `isScheduled = true` together with a freshly found slot. -/
theorem c9_no_weekend_scheduling (today : ℕ) (events : List Event) (e' : Event)
    (hmem : e' ∈ localOptimize today events)
    (hty : e'.type = EventType.flexible) (hft : e'.fixedTime = none)
    (hs : e'.isScheduled = true) (dt : DateTime) (hst : e'.scheduledTime = some dt) :
    weekday dt.day ≠ 0 ∧ weekday dt.day ≠ 6 := by
  rw [localOptimize] at hmem
  rcases mem_foldl_placeFlexible _ _ _ hmem with hin | ⟨e, he, hcase⟩
  · obtain ⟨e0, he0, rfl⟩ := List.mem_map.1 hin
    have h1 := List.mem_filter.1 he0
    rcases isAnchoredEvent_iff.1 h1.2 with hm | hfne
    · rw [scheduleFixed_type] at hty
      rw [hty] at hm
      exact EventType.noConfusion hm
    · rw [scheduleFixed_fixedTime] at hft
      exact absurd hft hfne
  · rcases hcase with ⟨P, dt0, hslot, rfl⟩ | rfl
    · have hdt : dt0 = dt := by
        have : ({ e with scheduledTime := some dt0, isScheduled := true } :
            Event).scheduledTime = some dt0 := rfl
        rw [this] at hst
        exact Option.some.inj hst
      subst hdt
      have hw := (firstFreeSlot_eq_some hslot).2.1
      rw [isWeekend, not_or] at hw
      exact hw
    · have : ({ e with isScheduled := false } : Event).isScheduled = false := rfl
      rw [this] at hs
      exact Bool.noConfusion hs

/-- Witness for C9 at a concrete input: an unconstrained flexible event on a
Monday is scheduled on day 4, whose weekday (1) is neither 0 nor 6. -/
theorem c9_weekday_witness : weekday 4 ≠ 0 ∧ weekday 4 ≠ 6 :=
  c9_no_weekend_scheduling 4 [mkFlex 7 30]
    { mkFlex 7 30 with scheduledTime := some ⟨4, 480⟩, isScheduled := true }
    (by decide) rfl rfl rfl ⟨4, 480⟩ rfl

end CalOpt
